import Mathlib

/-!
Shallow embedding of tikv's `src/util/rocksdb.rs`: the column-family
reconciliation algorithm (`check_and_open`), the MVCC statistics record
(`UserProperties`) with its encode/decode protocol, and the per-file
statistics collector (`UserPropertiesCollector`).

External collaborators (the rocksdb engine primitives) are modelled as an
oracle deciding which engine calls succeed.  Repository code that is not
part of the two source files (the number codec, the key-namespace
predicate, the versioned-key splitter, `cfs_diff`) is modelled from the
specification; each such definition is marked in its doc comment.
-/

/-- Modelled from the spec: the fixed-width big-endian byte encoding used by
the number codec (`util::codec::number`), which is not among the source
files.  `beBytes k n` is the `k`-byte big-endian encoding of `n`,
most-significant byte first. -/
def beBytes : Nat → Nat → List Nat
  | 0, _ => []
  | k + 1, n => (n / 256 ^ k % 256) :: beBytes k n

/-- Modelled from the spec: big-endian decoding of a byte list, the reading
side of the number codec. -/
def beFold (v : List Nat) : Nat :=
  v.foldl (fun a b => a * 256 + b) 0

/-- Modelled from the spec: `encode_u64` of `util::codec::number` writes a
u64 as 8 bytes, big-endian. -/
def encode_u64 (n : Nat) : List Nat := beBytes 8 n

/-- The maximum representable u64 value (`u64::MAX`). -/
def u64Max : Nat := 2 ^ 64 - 1

/-- Errors of the codec (`util::codec::Error`): a missing property-map key,
or a malformed value. -/
inductive CodecError
  | keyNotFound
  | decodeError
  deriving DecidableEq, Repr

/-- The persisted property map: byte-string keys to byte-string values
(`HashMap<Vec<u8>, Vec<u8>>`); keys are kept as strings since every key
used is an ASCII constant. -/
abbrev PropertyMap := List (String × List Nat)

/-- `DecodeU64::decode_u64` for property maps: look the key up, failing
with `KeyNotFound` when absent, then decode the value as a u64.  The inner
value decode is modelled from the spec: it fails with a decode error when
the value is malformed (wrong length for an 8-byte unsigned integer). -/
def decode_u64 (m : PropertyMap) (k : String) : Except CodecError Nat :=
  match List.lookup k m with
  | none => .error .keyNotFound
  | some v => if v.length = 8 then .ok (beFold v) else .error .decodeError

/-- The aggregate MVCC statistics record (`UserProperties`).  All six
fields are u64 in the source; they are embedded as `Nat`, with bounds
stated as hypotheses where they matter. -/
structure UserProperties where
  min_ts : Nat
  max_ts : Nat
  num_keys : Nat
  num_puts : Nat
  num_deletes : Nat
  num_corrupts : Nat
  deriving DecidableEq, Repr

/-- `UserProperties::new`: the empty accumulator, with sentinel timestamp
markers `u64::MAX` / `u64::MIN`. -/
def UserProperties.new : UserProperties where
  min_ts := u64Max
  max_ts := 0
  num_keys := 0
  num_puts := 0
  num_deletes := 0
  num_corrupts := 0

/-- `UserProperties::num_versions`. -/
def UserProperties.num_versions (p : UserProperties) : Nat :=
  p.num_puts + p.num_deletes

/-- `UserProperties::add`: the source mutates `self` in place; embedded as
the pure combination of the receiver with the argument. -/
def UserProperties.add (p other : UserProperties) : UserProperties where
  min_ts := min p.min_ts other.min_ts
  max_ts := max p.max_ts other.max_ts
  num_keys := p.num_keys + other.num_keys
  num_puts := p.num_puts + other.num_puts
  num_deletes := p.num_deletes + other.num_deletes
  num_corrupts := p.num_corrupts + other.num_corrupts

/-- `UserProperties::encode`: the six namespaced keys, each value the
8-byte encoding of the corresponding field. -/
def UserProperties.encode (p : UserProperties) : PropertyMap :=
  [("tikv.min_ts", encode_u64 p.min_ts),
   ("tikv.max_ts", encode_u64 p.max_ts),
   ("tikv.num_keys", encode_u64 p.num_keys),
   ("tikv.num_puts", encode_u64 p.num_puts),
   ("tikv.num_deletes", encode_u64 p.num_deletes),
   ("tikv.num_corrupts", encode_u64 p.num_corrupts)]

/-- `UserProperties::decode`: look up and decode the six fields in order,
propagating the first failure (`try!`). -/
def UserProperties.decode (m : PropertyMap) : Except CodecError UserProperties := do
  let a ← decode_u64 m "tikv.min_ts"
  let b ← decode_u64 m "tikv.max_ts"
  let c ← decode_u64 m "tikv.num_keys"
  let d ← decode_u64 m "tikv.num_puts"
  let e ← decode_u64 m "tikv.num_deletes"
  let f ← decode_u64 m "tikv.num_corrupts"
  return ⟨a, b, c, d, e, f⟩

namespace keys

/-- Modelled from the spec: `raftstore::store::keys::validate_data_key`,
the "is this key in the data namespace?" predicate, is not among the
source files.  Data keys carry the data-namespace marker byte `z` (0x7a)
as their first byte. -/
def validate_data_key (key : List Nat) : Bool :=
  match key with
  | [] => false
  | b :: _ => b == 122

end keys

namespace types

/-- Modelled from the spec: `storage::types::split_encoded_key_on_ts`, the
versioned-key splitter, is not among the source files.  It splits an
encoded key into the logical key and its fixed-width (8-byte, big-endian)
trailing timestamp, failing on malformed input (too short to carry a
timestamp). -/
def split_encoded_key_on_ts (key : List Nat) : Option (List Nat × Nat) :=
  if key.length < 8 then none
  else some (key.take (key.length - 8), beFold (key.drop (key.length - 8)))

end types

/-- The entry-kind tag (`DBEntryType`): `Put`, `Delete`, or any other kind
(merge operands and the like), which the collector ignores. -/
inductive DBEntryType
  | Put
  | Delete
  | Other
  deriving DecidableEq, Repr

/-- The per-file statistics collector: the accumulator plus the remembered
last logical key. -/
structure UserPropertiesCollector where
  props : UserProperties
  last_key : List Nat
  deriving DecidableEq, Repr

/-- `UserPropertiesCollector::new`. -/
def UserPropertiesCollector.new : UserPropertiesCollector where
  props := UserProperties.new
  last_key := []

/-- `TablePropertiesCollector::add` for `UserPropertiesCollector`: skip
non-data keys; on a failed split count a corruption and stop; otherwise
update the timestamp range, count a fresh logical key when it differs from
the remembered one, and classify the entry kind.  The ignored value,
sequence, and file-size arguments are omitted. -/
def UserPropertiesCollector.add (c : UserPropertiesCollector) (key : List Nat)
    (entry_type : DBEntryType) : UserPropertiesCollector :=
  if !keys.validate_data_key key then c
  else
    match types.split_encoded_key_on_ts key with
    | none =>
      { c with props := { c.props with num_corrupts := c.props.num_corrupts + 1 } }
    | some (k, ts) =>
      let p1 := { c.props with
                    min_ts := min c.props.min_ts ts,
                    max_ts := max c.props.max_ts ts }
      let c1 := if k ≠ c.last_key
                then { c with props := { p1 with num_keys := p1.num_keys + 1 },
                              last_key := k }
                else { c with props := p1 }
      match entry_type with
      | .Put => { c1 with props := { c1.props with num_puts := c1.props.num_puts + 1 } }
      | .Delete =>
        { c1 with props := { c1.props with num_deletes := c1.props.num_deletes + 1 } }
      | .Other => c1

/-- `TablePropertiesCollector::finish`. -/
def UserPropertiesCollector.finish (c : UserPropertiesCollector) : PropertyMap :=
  c.props.encode

/-- The name of the default column family (`storage::CF_DEFAULT`). -/
def CF_DEFAULT : String := "default"

/-- A `(name, options)` descriptor entry (`CFOptions`); the opaque engine
options blob is embedded as a `Nat` tag, since this core never interprets
it. -/
structure CFOptions where
  cf : String
  options : Nat
  deriving DecidableEq, Repr

/-- `cfs_opts.iter().find(|x| x.cf == cf)`. -/
def lookupCF (cfs_opts : List CFOptions) (cf : String) : Option CFOptions :=
  cfs_opts.find? (fun x => x.cf == cf)

/-- The options passed for a present family on the slow-path open: its
descriptor options when the descriptor has it, else a fresh default
`Options::new()` value (modelled by tag 0). -/
def optionsFor (cfs_opts : List CFOptions) (cf : String) : Nat :=
  match lookupCF cfs_opts cf with
  | some x => x.options
  | none => 0

/-- Modelled from the spec: `cfs_diff` (defined in `util`, outside the
source files): the present-vs-requested set difference, "every present
family absent from the descriptor". -/
def cfs_diff (a b : List String) : List String :=
  a.filter (fun x => !b.contains x)

/-- One engine call issued during reconciliation: an open with explicit
per-family options, a drop, or a create. -/
inductive EngineCall
  | openCF (pairs : List (String × Nat))
  | dropCF (cf : String)
  | createCF (cf : String) (opt : Nat)
  deriving DecidableEq, Repr

/-- The oracle standing for the external engine: which metadata listing,
open, drop, and create calls succeed. -/
structure EngineOracle where
  listOk : Bool
  openOk : List String → Bool
  dropOk : String → Bool
  createOk : String → Bool

/-- Outcome of a reconciliation run, carrying the on-disk column-family
set it leaves behind: a live handle (`ok`), an error returned to the
caller (`err`), or a process abort from an `unwrap` on a failed engine
call (`panic`). -/
inductive ROutcome
  | ok (cfs : List String)
  | err (cfs : List String)
  | panic (cfs : List String)
  deriving DecidableEq, Repr

/-- The on-disk column-family set an outcome leaves behind. -/
def ROutcome.cfs : ROutcome → List String
  | .ok cfs => cfs
  | .err cfs => cfs
  | .panic cfs => cfs

/-- The drop loop of `check_and_open` (lines 139-146): walk the discarded
families, skipping the default family, issuing a drop for each other one
(`try!`: the first failure aborts, leaving the state partially
reconciled).  Returns (success, resulting cf set, calls issued). -/
def runDrops (O : EngineOracle) : List String → List String →
    Bool × List String × List EngineCall
  | cfs, [] => (true, cfs, [])
  | cfs, d :: rest =>
    if d == CF_DEFAULT then runDrops O cfs rest
    else if O.dropOk d then
      let r := runDrops O (cfs.erase d) rest
      (r.1, r.2.1, .dropCF d :: r.2.2)
    else (false, cfs, [.dropCF d])

/-- The create loop of `check_and_open` (lines 148-151): create each
missing requested family with its own descriptor options (`try!`: the
first failure aborts). -/
def runCreates (O : EngineOracle) (cfs_opts : List CFOptions) :
    List String → List String → Bool × List String × List EngineCall
  | cfs, [] => (true, cfs, [])
  | cfs, c :: rest =>
    if O.createOk c then
      let r := runCreates O cfs_opts (cfs ++ [c]) rest
      (r.1, r.2.1, .createCF c (optionsFor cfs_opts c) :: r.2.2)
    else (false, cfs, [.createCF c (optionsFor cfs_opts c)])

/-- The existing-database branch of `check_and_open` (lines 103-154):
list the present families; when the present list equals the requested
list, open directly with each family's descriptor options; otherwise open
with exactly the present set (descriptor options when given, defaults
otherwise) — a failure of this open is an `unwrap`, i.e. a process abort —
then drop the discarded non-default families and create the missing ones.
Returns the outcome together with the engine calls issued. -/
def check_and_open_existing (O : EngineOracle) (existed : List String)
    (cfs_opts : List CFOptions) : ROutcome × List EngineCall :=
  if !O.listOk then (.err existed, [])
  else
    let needed := cfs_opts.map (fun x => x.cf)
    if existed = needed then
      let pairs := cfs_opts.map (fun x => (x.cf, x.options))
      if O.openOk (pairs.map Prod.fst) then (.ok existed, [.openCF pairs])
      else (.err existed, [.openCF pairs])
    else
      let pairs := existed.map (fun cf => (cf, optionsFor cfs_opts cf))
      if !O.openOk existed then (.panic existed, [.openCF pairs])
      else
        let dr := runDrops O existed (cfs_diff existed needed)
        if !dr.1 then (.err dr.2.1, .openCF pairs :: dr.2.2)
        else
          let cr := runCreates O cfs_opts dr.2.1 (cfs_diff needed existed)
          if !cr.1 then (.err cr.2.1, .openCF pairs :: (dr.2.2 ++ cr.2.2))
          else (.ok cr.2.1, .openCF pairs :: (dr.2.2 ++ cr.2.2))

/-- A key that contributes to the statistics: it passes the data-namespace
check and its multi-version split succeeds. -/
def validEntry (key : List Nat) : Bool :=
  keys.validate_data_key key && (types.split_encoded_key_on_ts key).isSome

/-- Collector states reachable from the fresh collector by `add` calls;
the boolean records whether any valid entry has been observed. -/
inductive ReachC : UserPropertiesCollector → Bool → Prop
  | init : ReachC UserPropertiesCollector.new false
  | step {c b} (key : List Nat) (et : DBEntryType) :
      ReachC c b → ReachC (c.add key et) (b || validEntry key)

/-- `UserProperties` values reachable from the fresh accumulator by
collector `add` calls and pairwise merges; the boolean records whether any
valid entry has been observed. -/
inductive ReachP : UserProperties → Bool → Prop
  | collect {c b} : ReachC c b → ReachP c.props b
  | merge {p q bp bq} : ReachP p bp → ReachP q bq → ReachP (p.add q) (bp || bq)

/-- The six namespaced property keys, in the order `decode` reads them. -/
def sixKeys : List String :=
  ["tikv.min_ts", "tikv.max_ts", "tikv.num_keys",
   "tikv.num_puts", "tikv.num_deletes", "tikv.num_corrupts"]

/-- What is wrong with one key of a property map, if anything: absent, or
present with a malformed (wrong-length) value. -/
def badKey (m : PropertyMap) (k : String) : Option CodecError :=
  match List.lookup k m with
  | none => some .keyNotFound
  | some v => if v.length = 8 then none else some .decodeError

/-! ## Codec lemmas -/

theorem beBytes_foldl (k : Nat) (n : Nat) :
    ∀ a, (beBytes k n).foldl (fun x b => x * 256 + b) a = a * 256 ^ k + n % 256 ^ k := by
  induction k with
  | zero => intro a; simp [beBytes, Nat.mod_one]
  | succ k ih =>
    intro a
    rw [beBytes, List.foldl_cons, ih, Nat.mod_pow_succ]
    ring

theorem beFold_encode_u64 (n : Nat) (h : n ≤ u64Max) : beFold (encode_u64 n) = n := by
  unfold beFold encode_u64
  rw [beBytes_foldl]
  norm_num [u64Max] at h ⊢
  omega

theorem beBytes_length (k n : Nat) : (beBytes k n).length = k := by
  induction k with
  | zero => rfl
  | succ k ih => simp [beBytes, ih]

theorem decode_u64_of_lookup (m : PropertyMap) (k : String) (v : List Nat)
    (h1 : List.lookup k m = some v) (h2 : v.length = 8) :
    decode_u64 m k = .ok (beFold v) := by
  simp [decode_u64, h1, h2]

/-- C2: decoding the property map produced by encoding any `UserProperties`
value `p` yields exactly `p` back, field by field, provided every field is
a representable u64 value. -/
theorem decode_encode_roundtrip (p : UserProperties)
    (h1 : p.min_ts ≤ u64Max) (h2 : p.max_ts ≤ u64Max) (h3 : p.num_keys ≤ u64Max)
    (h4 : p.num_puts ≤ u64Max) (h5 : p.num_deletes ≤ u64Max)
    (h6 : p.num_corrupts ≤ u64Max) :
    UserProperties.decode (UserProperties.encode p) = .ok p := by
  have l1 : List.lookup "tikv.min_ts" p.encode = some (encode_u64 p.min_ts) := rfl
  have l2 : List.lookup "tikv.max_ts" p.encode = some (encode_u64 p.max_ts) := rfl
  have l3 : List.lookup "tikv.num_keys" p.encode = some (encode_u64 p.num_keys) := rfl
  have l4 : List.lookup "tikv.num_puts" p.encode = some (encode_u64 p.num_puts) := rfl
  have l5 : List.lookup "tikv.num_deletes" p.encode = some (encode_u64 p.num_deletes) := rfl
  have l6 : List.lookup "tikv.num_corrupts" p.encode = some (encode_u64 p.num_corrupts) := rfl
  have len : ∀ n : Nat, (encode_u64 n).length = 8 := fun n => beBytes_length 8 n
  rw [UserProperties.decode,
      decode_u64_of_lookup _ _ _ l1 (len _), decode_u64_of_lookup _ _ _ l2 (len _),
      decode_u64_of_lookup _ _ _ l3 (len _), decode_u64_of_lookup _ _ _ l4 (len _),
      decode_u64_of_lookup _ _ _ l5 (len _), decode_u64_of_lookup _ _ _ l6 (len _)]
  rw [beFold_encode_u64 _ h1, beFold_encode_u64 _ h2, beFold_encode_u64 _ h3,
      beFold_encode_u64 _ h4, beFold_encode_u64 _ h5, beFold_encode_u64 _ h6]
  rfl

/-- Witness for C2: the round trip evaluated at a concrete value. -/
theorem decode_encode_roundtrip_witness :
    UserProperties.decode (UserProperties.encode ⟨1, 2, 3, 4, 5, 6⟩) = .ok ⟨1, 2, 3, 4, 5, 6⟩ :=
  decode_encode_roundtrip ⟨1, 2, 3, 4, 5, 6⟩ (by norm_num [u64Max]) (by norm_num [u64Max])
    (by norm_num [u64Max]) (by norm_num [u64Max]) (by norm_num [u64Max]) (by norm_num [u64Max])

/-- C5: feeding a fresh collector the six in-order data-namespace entries
("ab",ts=2,Put), ("ab",ts=0,Delete), ("cd",ts=4,Delete), ("cd",ts=3,Put),
("ef",ts=6,Put), ("gh",ts=7,Delete) — each key the data marker byte
followed by the logical key bytes and the 8-byte timestamp — yields an
accumulator with min_ts=0, max_ts=7, num_keys=4, num_puts=3, num_deletes=3,
num_corrupts=0. -/
theorem collector_six_entries :
    ((((((UserPropertiesCollector.new.add
        ([122, 97, 98] ++ beBytes 8 2) .Put).add
        ([122, 97, 98] ++ beBytes 8 0) .Delete).add
        ([122, 99, 100] ++ beBytes 8 4) .Delete).add
        ([122, 99, 100] ++ beBytes 8 3) .Put).add
        ([122, 101, 102] ++ beBytes 8 6) .Put).add
        ([122, 103, 104] ++ beBytes 8 7) .Delete).props
      = ⟨0, 7, 4, 3, 3, 0⟩ := by decide

/-- C8: the merge `UserProperties::add` is commutative and associative
(minimum of `min_ts`, maximum of `max_ts`, sums of the four counters), and
merging a freshly initialized accumulator with any representable value `p`
yields `p`. -/
theorem userProperties_add_laws :
    (∀ a b : UserProperties, a.add b = b.add a)
  ∧ (∀ a b c : UserProperties, (a.add b).add c = a.add (b.add c))
  ∧ (∀ p : UserProperties, p.min_ts ≤ u64Max → UserProperties.new.add p = p) := by
  refine ⟨?_, ?_, ?_⟩
  · intro a b
    cases a; cases b
    simp [UserProperties.add, Nat.min_comm, Nat.max_comm, Nat.add_comm]
  · intro a b c
    cases a; cases b; cases c
    simp [UserProperties.add, Nat.min_assoc, Nat.max_assoc, Nat.add_assoc]
  · intro p h
    cases p
    simp only [UserProperties.add, UserProperties.new]
    simp_all [Nat.min_eq_right, Nat.zero_max]

/-- Witness for C8: merging the fresh accumulator with a concrete value
yields it back. -/
theorem userProperties_add_laws_witness :
    UserProperties.new.add ⟨1, 2, 3, 4, 5, 6⟩ = ⟨1, 2, 3, 4, 5, 6⟩ :=
  userProperties_add_laws.2.2 ⟨1, 2, 3, 4, 5, 6⟩ (by norm_num [u64Max])

/-- C6: a data-namespace key whose multi-version split fails adds exactly
one to `num_corrupts` and leaves every other counter, both timestamps, and
the remembered last logical key unchanged, from every collector state. -/
theorem collector_add_corrupt (c : UserPropertiesCollector) (key : List Nat)
    (et : DBEntryType) (h1 : keys.validate_data_key key = true)
    (h2 : types.split_encoded_key_on_ts key = none) :
    c.add key et
      = { c with props := { c.props with num_corrupts := c.props.num_corrupts + 1 } } := by
  simp [UserPropertiesCollector.add, h1, h2]

/-- Witness for C6: the one-byte data key `[z]` is too short to carry a
timestamp, so it is counted as corrupt. -/
theorem collector_add_corrupt_witness :
    UserPropertiesCollector.new.add [122] .Put
      = { UserPropertiesCollector.new with
            props := { UserPropertiesCollector.new.props with
                         num_corrupts := UserPropertiesCollector.new.props.num_corrupts + 1 } } :=
  collector_add_corrupt UserPropertiesCollector.new [122] .Put (by decide) (by decide)

/-- C10: one `add` call, with any key and entry kind, never decreases any
of the four counters or `max_ts`, and never increases `min_ts`. -/
theorem collector_add_monotone (c : UserPropertiesCollector) (key : List Nat)
    (et : DBEntryType) :
    c.props.num_keys ≤ (c.add key et).props.num_keys
  ∧ c.props.num_puts ≤ (c.add key et).props.num_puts
  ∧ c.props.num_deletes ≤ (c.add key et).props.num_deletes
  ∧ c.props.num_corrupts ≤ (c.add key et).props.num_corrupts
  ∧ c.props.max_ts ≤ (c.add key et).props.max_ts
  ∧ (c.add key et).props.min_ts ≤ c.props.min_ts := by
  unfold UserPropertiesCollector.add
  cases hv : keys.validate_data_key key with
  | false => simp
  | true =>
    cases hs : types.split_encoded_key_on_ts key with
    | none => simp
    | some kt =>
      rcases kt with ⟨k, ts⟩
      cases et <;> by_cases hk : k ≠ c.last_key <;> simp_all

theorem reachC_invariant (c : UserPropertiesCollector) (b : Bool) (h : ReachC c b) :
    (0 < c.props.num_keys → c.props.min_ts ≤ c.props.max_ts)
  ∧ (b = false → c.props.min_ts = u64Max ∧ c.props.max_ts = 0) := by
  induction h with
  | init => exact ⟨fun h => absurd h (by decide), fun _ => ⟨rfl, rfl⟩⟩
  | @step c b key et _ ih =>
    cases hv : keys.validate_data_key key with
    | false =>
      simpa [UserPropertiesCollector.add, validEntry, hv] using ih
    | true =>
      cases hs : types.split_encoded_key_on_ts key with
      | none =>
        simpa [UserPropertiesCollector.add, validEntry, hv, hs] using ih
      | some kt =>
        rcases kt with ⟨k, ts⟩
        refine ⟨?_, by simp [validEntry, hv, hs]⟩
        intro _
        unfold UserPropertiesCollector.add
        rw [hv, hs]
        cases et <;> by_cases hk : k ≠ c.last_key <;> simp_all

/-- C9: every `UserProperties` state reachable from the fresh accumulator
by collector `add` calls and pairwise merges satisfies: `num_keys > 0`
implies `min_ts ≤ max_ts`, and when no valid entry was ever observed,
`min_ts` holds the maximum representable u64 value and `max_ts` the
minimum. -/
theorem reachable_props_invariant (p : UserProperties) (b : Bool) (h : ReachP p b) :
    (0 < p.num_keys → p.min_ts ≤ p.max_ts)
  ∧ (b = false → p.min_ts = u64Max ∧ p.max_ts = 0) := by
  induction h with
  | @collect c b hc => exact reachC_invariant c b hc
  | @merge p q bp bq _ _ ihp ihq =>
    constructor
    · intro hpos
      simp only [UserProperties.add] at hpos ⊢
      have : 0 < p.num_keys ∨ 0 < q.num_keys := by omega
      rcases this with h | h
      · have := ihp.1 h
        omega
      · have := ihq.1 h
        omega
    · intro hb
      rcases Bool.or_eq_false_iff.mp hb with ⟨hb1, hb2⟩
      rcases ihp.2 hb1 with ⟨e1, e2⟩
      rcases ihq.2 hb2 with ⟨e3, e4⟩
      simp [UserProperties.add, e1, e2, e3, e4]

/-- Witness for C9: the fresh accumulator itself is reachable with no
valid entry observed, and satisfies the invariant. -/
theorem reachable_props_invariant_witness :
    (0 < UserPropertiesCollector.new.props.num_keys →
       UserPropertiesCollector.new.props.min_ts ≤ UserPropertiesCollector.new.props.max_ts)
  ∧ (false = false →
       UserPropertiesCollector.new.props.min_ts = u64Max
     ∧ UserPropertiesCollector.new.props.max_ts = 0) :=
  reachable_props_invariant _ false (ReachP.collect ReachC.init)

theorem runDrops_preserves_default (O : EngineOracle) (ds : List String) :
    ∀ cfs, CF_DEFAULT ∈ cfs →
      CF_DEFAULT ∈ (runDrops O cfs ds).2.1
    ∧ EngineCall.dropCF CF_DEFAULT ∉ (runDrops O cfs ds).2.2 := by
  induction ds with
  | nil => intro cfs h; simpa [runDrops] using h
  | cons d rest ih =>
    intro cfs h
    by_cases hd : d = CF_DEFAULT
    · subst hd
      simpa [runDrops] using ih cfs h
    · have hbeq : (d == CF_DEFAULT) = false := by simp [hd]
      cases hdo : O.dropOk d with
      | true =>
        have := ih (cfs.erase d) ((List.mem_erase_of_ne (Ne.symm hd)).mpr h)
        simp only [runDrops, hbeq, hdo]
        simp_all [Ne.symm hd]
      | false =>
        simp only [runDrops, hbeq, hdo]
        simp_all [Ne.symm hd]

theorem runCreates_preserves_default (O : EngineOracle) (cfs_opts : List CFOptions)
    (cs : List String) :
    ∀ cfs, CF_DEFAULT ∈ cfs →
      CF_DEFAULT ∈ (runCreates O cfs_opts cfs cs).2.1
    ∧ EngineCall.dropCF CF_DEFAULT ∉ (runCreates O cfs_opts cfs cs).2.2 := by
  induction cs with
  | nil => intro cfs h; simpa [runCreates] using h
  | cons c rest ih =>
    intro cfs h
    cases hc : O.createOk c with
    | true =>
      have := ih (cfs ++ [c]) (List.mem_append_left _ h)
      simp only [runCreates, hc]
      simp_all
    | false =>
      simp only [runCreates, hc]
      simp_all

/-- C1: reconciling an existing database never drops the default column
family, whatever the starting family set and the descriptor (including a
descriptor omitting the default family): no drop call ever targets the
default family, and it is among the present families afterward, on every
outcome. -/
theorem check_and_open_never_drops_default (O : EngineOracle) (existed : List String)
    (cfs_opts : List CFOptions) (h : CF_DEFAULT ∈ existed) :
    CF_DEFAULT ∈ ((check_and_open_existing O existed cfs_opts).1).cfs
  ∧ EngineCall.dropCF CF_DEFAULT ∉ (check_and_open_existing O existed cfs_opts).2 := by
  have hd := runDrops_preserves_default O
    (cfs_diff existed (cfs_opts.map (fun x => x.cf))) existed h
  have hc := runCreates_preserves_default O cfs_opts
    (cfs_diff (cfs_opts.map (fun x => x.cf)) existed) _ hd.1
  simp only [check_and_open_existing]
  cases hl : O.listOk with
  | false => simpa [ROutcome.cfs] using h
  | true =>
    by_cases he : existed = cfs_opts.map (fun x => x.cf)
    · cases ho : O.openOk ((cfs_opts.map (fun x => (x.cf, x.options))).map Prod.fst) <;>
        simp_all [ROutcome.cfs]
    · cases ho : O.openOk existed with
      | false => simp_all [ROutcome.cfs]
      | true =>
        cases hdr : (runDrops O existed (cfs_diff existed (cfs_opts.map (fun x => x.cf)))).1 with
        | false => simp_all [ROutcome.cfs]
        | true =>
          cases hcr : (runCreates O cfs_opts
              (runDrops O existed (cfs_diff existed (cfs_opts.map (fun x => x.cf)))).2.1
              (cfs_diff (cfs_opts.map (fun x => x.cf)) existed)).1 <;>
            simp_all [ROutcome.cfs]

/-- Witness for C1: a concrete reconciliation of an existing database
whose descriptor omits the default family still leaves it present. -/
theorem check_and_open_never_drops_default_witness :
    CF_DEFAULT ∈ ((check_and_open_existing
        ⟨true, fun _ => true, fun _ => true, fun _ => true⟩ ["default"] []).1).cfs
  ∧ EngineCall.dropCF CF_DEFAULT ∉ (check_and_open_existing
        ⟨true, fun _ => true, fun _ => true, fun _ => true⟩ ["default"] []).2 :=
  check_and_open_never_drops_default
    ⟨true, fun _ => true, fun _ => true, fun _ => true⟩ ["default"] [] (by decide)

/-- C3 (code bug): the slow-path open of the present family set unwraps
its result, so an engine failure there aborts the process (`panic`)
instead of surfacing an error to the caller, while the same failure on
the fast path is returned as an error. -/
theorem slow_path_open_failure_panics :
    (check_and_open_existing ⟨true, fun _ => false, fun _ => true, fun _ => true⟩
        ["default", "cf1"] [⟨"default", 0⟩]).1
      = ROutcome.panic ["default", "cf1"]
  ∧ (check_and_open_existing ⟨true, fun _ => false, fun _ => true, fun _ => true⟩
        ["default"] [⟨"default", 0⟩]).1
      = ROutcome.err ["default"] := by
  constructor <;> rfl

theorem lookupCF_of_nodup (x : CFOptions) :
    ∀ cfs_opts : List CFOptions, (cfs_opts.map CFOptions.cf).Nodup → x ∈ cfs_opts →
      lookupCF cfs_opts x.cf = some x := by
  intro l
  induction l with
  | nil => intro _ hx; cases hx
  | cons y rest ih =>
    intro hnd hx
    simp only [List.map_cons, List.nodup_cons] at hnd
    rcases List.mem_cons.mp hx with rfl | hx2
    · simp [lookupCF, List.find?]
    · have hne : (y.cf == x.cf) = false := by
        rw [beq_eq_false_iff_ne]
        intro hcf
        exact hnd.1 (hcf ▸ List.mem_map_of_mem CFOptions.cf hx2)
      simp only [lookupCF, List.find?, hne]
      exact ih hnd.2 hx2

theorem cfs_diff_eq_nil (a b : List String) (h : ∀ x ∈ a, x ∈ b) : cfs_diff a b = [] := by
  simp only [cfs_diff, List.filter_eq_nil_iff]
  intro x hx
  simp [h x hx]

/-- C4: when the present family list and the descriptor's family list are
identical as sets (both duplicate-free), reconciliation issues exactly one
engine call: an open covering exactly the present families, pairing each
with its own descriptor entry — no drop and no create is issued. -/
theorem set_equal_opens_directly (O : EngineOracle) (existed : List String)
    (cfs_opts : List CFOptions) (hlist : O.listOk = true)
    (_hnd1 : existed.Nodup) (hnd2 : (cfs_opts.map CFOptions.cf).Nodup)
    (hset : existed.toFinset = (cfs_opts.map CFOptions.cf).toFinset) :
    ∃ pairs : List (String × Nat),
      (check_and_open_existing O existed cfs_opts).2 = [EngineCall.openCF pairs]
    ∧ (pairs.map Prod.fst).toFinset = existed.toFinset
    ∧ ∀ pr ∈ pairs, lookupCF cfs_opts pr.1 = some ⟨pr.1, pr.2⟩ := by
  have hmem : ∀ x, x ∈ existed ↔ x ∈ cfs_opts.map CFOptions.cf := fun x => by
    rw [← List.mem_toFinset, ← List.mem_toFinset, hset]
  by_cases he : existed = cfs_opts.map (fun x => x.cf)
  · refine ⟨cfs_opts.map (fun x => (x.cf, x.options)), ?_, ?_, ?_⟩
    · simp only [check_and_open_existing, hlist, he]
      cases O.openOk ((cfs_opts.map (fun x => (x.cf, x.options))).map Prod.fst) <;> simp
    · rw [List.map_map]
      rw [show (Prod.fst ∘ fun x : CFOptions => (x.cf, x.options)) = CFOptions.cf from rfl]
      exact hset.symm
    · intro pr hpr
      rcases List.mem_map.mp hpr with ⟨x, hx, rfl⟩
      exact lookupCF_of_nodup x cfs_opts hnd2 hx
  · have h1 : cfs_diff existed (cfs_opts.map (fun x => x.cf)) = [] :=
      cfs_diff_eq_nil _ _ (fun x hx => (hmem x).mp hx)
    have h2 : cfs_diff (cfs_opts.map (fun x => x.cf)) existed = [] :=
      cfs_diff_eq_nil _ _ (fun x hx => (hmem x).mpr hx)
    refine ⟨existed.map (fun cf => (cf, optionsFor cfs_opts cf)), ?_, ?_, ?_⟩
    · simp only [check_and_open_existing, hlist, he, h1, h2, runDrops, runCreates]
      cases O.openOk existed <;> simp
    · rw [List.map_map]
      rw [show (Prod.fst ∘ fun cf => (cf, optionsFor cfs_opts cf)) = id from rfl]
      simp
    · intro pr hpr
      rcases List.mem_map.mp hpr with ⟨cf, hcf, rfl⟩
      rcases List.mem_map.mp ((hmem cf).mp hcf) with ⟨x, hx, rfl⟩
      have hl := lookupCF_of_nodup x cfs_opts hnd2 hx
      simp only [optionsFor, hl]

theorem decode_u64_eq_badKey (m : PropertyMap) (k : String) :
    decode_u64 m k =
      match badKey m k with
      | none => .ok (beFold ((List.lookup k m).getD []))
      | some e => .error e := by
  unfold decode_u64 badKey
  cases List.lookup k m with
  | none => rfl
  | some v => by_cases h : v.length = 8 <;> simp [h]

theorem decode_spec (m : PropertyMap) :
    UserProperties.decode m =
      match sixKeys.findSome? (badKey m) with
      | some e => .error e
      | none => .ok ⟨beFold ((List.lookup "tikv.min_ts" m).getD []),
                     beFold ((List.lookup "tikv.max_ts" m).getD []),
                     beFold ((List.lookup "tikv.num_keys" m).getD []),
                     beFold ((List.lookup "tikv.num_puts" m).getD []),
                     beFold ((List.lookup "tikv.num_deletes" m).getD []),
                     beFold ((List.lookup "tikv.num_corrupts" m).getD [])⟩ := by
  unfold UserProperties.decode
  rw [decode_u64_eq_badKey m "tikv.min_ts", decode_u64_eq_badKey m "tikv.max_ts",
      decode_u64_eq_badKey m "tikv.num_keys", decode_u64_eq_badKey m "tikv.num_puts",
      decode_u64_eq_badKey m "tikv.num_deletes", decode_u64_eq_badKey m "tikv.num_corrupts"]
  simp only [sixKeys, List.findSome?]
  rcases badKey m "tikv.min_ts" with _ | e1
  · rcases badKey m "tikv.max_ts" with _ | e2
    · rcases badKey m "tikv.num_keys" with _ | e3
      · rcases badKey m "tikv.num_puts" with _ | e4
        · rcases badKey m "tikv.num_deletes" with _ | e5
          · rcases badKey m "tikv.num_corrupts" with _ | e6
            · rfl
            · rfl
          · rfl
        · rfl
      · rfl
    · rfl
  · rfl

/-- Counterexample to C7 as stated: in the map `{"tikv.min_ts" ↦ [0]}` the
key `"tikv.max_ts"` is absent, yet `decode` does not fail with a
key-not-found error (it fails with the decode error of the malformed
`"tikv.min_ts"` value, which is read first). -/
theorem decode_keyNotFound_cex :
    List.lookup "tikv.max_ts" ([("tikv.min_ts", [0])] : PropertyMap) = none
  ∧ UserProperties.decode [("tikv.min_ts", [0])] ≠ .error .keyNotFound := by
  refine ⟨rfl, fun h => ?_⟩
  have hd : UserProperties.decode [("tikv.min_ts", [0])] = .error .decodeError := rfl
  rw [hd] at h
  injection h with h2
  cases h2

/-- C7 (amended): `decode` succeeds iff all six namespaced keys are
present with well-formed (8-byte) values; when it fails, the error kind is
that of the first offending key in the fixed decode order: key-not-found
if that key is absent, decode error if it is present but malformed. -/
theorem decode_error_characterization (m : PropertyMap) :
    ((∃ p, UserProperties.decode m = .ok p) ↔ ∀ k ∈ sixKeys, badKey m k = none)
  ∧ ∀ e, UserProperties.decode m = .error e ↔ sixKeys.findSome? (badKey m) = some e := by
  have hs := decode_spec m
  rcases hf : sixKeys.findSome? (badKey m) with _ | e
  · rw [hf] at hs
    refine ⟨⟨fun _ => List.findSome?_eq_none_iff.mp hf, fun _ => ⟨_, hs⟩⟩, fun e => ?_⟩
    rw [hs]
    constructor
    · intro h; cases h
    · intro h; cases h
  · have hs2 : UserProperties.decode m = .error e := by rw [hs, hf]
    refine ⟨⟨?_, ?_⟩, fun e2 => ⟨fun h => ?_, fun h => ?_⟩⟩
    · rintro ⟨p, hp⟩; rw [hs2] at hp; cases hp
    · intro hall
      rw [List.findSome?_eq_none_iff.mpr hall] at hf
      cases hf
    · rw [hs2] at h
      injection h with h2
      rw [← h2]
    · injection h with h2
      rw [hs2, h2]

/-- Witness for C4: an existing database holding `{default, cf1}`
reconciled with the same families listed in the opposite order (with
options 7 and 3) issues exactly one open call, covering both families
with their descriptor options. -/
theorem set_equal_opens_directly_witness :
    ∃ pairs : List (String × Nat),
      (check_and_open_existing ⟨true, fun _ => true, fun _ => true, fun _ => true⟩
          ["default", "cf1"] [⟨"cf1", 7⟩, ⟨"default", 3⟩]).2 = [EngineCall.openCF pairs]
    ∧ (pairs.map Prod.fst).toFinset = (["default", "cf1"] : List String).toFinset
    ∧ ∀ pr ∈ pairs, lookupCF [⟨"cf1", 7⟩, ⟨"default", 3⟩] pr.1 = some ⟨pr.1, pr.2⟩ :=
  set_equal_opens_directly ⟨true, fun _ => true, fun _ => true, fun _ => true⟩
    ["default", "cf1"] [⟨"cf1", 7⟩, ⟨"default", 3⟩] rfl (by decide) (by decide) (by decide)
